import Mathlib

set_option autoImplicit false

/-!
Verification of the grovelog structured-logging library (Go) against its
specification. The development shallowly embeds the handler core from
`logger.go` (package grovelog: `Handler`, `collectFields`, `marshalFields`,
`formatTime`, `Handle`, `WithAttrs`, `WithGroup`), the `MultiHandler`
fan-out, and the context utilities from `util/context.go`.

Machine-level conventions of the embedding:
 - slog attribute values become `GoValue` (scalars or nested groups);
 - the Go `map[string]any` used by `collectFields` becomes an association
   list (`FieldMap`) with overwrite-on-insert, matching Go map assignment
   extensionally (`mapLookup` after `mapInsert`);
 - Go slices (with their aliasing/append semantics) are modelled explicitly
   for the derivation operations `WithAttrs`/`WithGroup`: a heap of backing
   arrays plus (array id, length) slice views, so clone-and-append versus
   in-place mutation is observable;
 - `encoding/json` is abstracted by a marshalling function parameter; the
   `json.Encoder` used on the pooled path emits the same bytes followed by
   a trailing newline, as documented by the Go standard library;
 - `log.Logger.Println` performs one write to the sink and discards the
   write's error, matching the Go standard library behaviour.
-/

namespace Grovelog

/-- Values carried by slog attributes: dynamically-typed scalars or nested
groups of further attributes (`slog.GroupValue`). -/
inductive GoValue where
  | vInt : Int → GoValue
  | vStr : String → GoValue
  | vBool : Bool → GoValue
  | vGroup : List (String × GoValue) → GoValue

/-- A slog attribute: a key paired with a value. -/
abbrev Attr := String × GoValue

/-- The `fields map[string]any` built by `collectFields`, as an association
list; `mapInsert` gives Go's `fields[k] = v` assignment semantics. -/
abbrev FieldMap := List (String × GoValue)

/-- Go map assignment `m[k] = v`: overwrite the binding of `k` if present
(keys are unique in maps built from the empty map), otherwise add a new
binding. -/
def mapInsert : FieldMap → String → GoValue → FieldMap
  | [], k, v => [(k, v)]
  | (k', v') :: rest, k, v =>
      if k' = k then (k, v) :: rest else (k', v') :: mapInsert rest k v

/-- Go map read `m[k]`: the binding of `k`, if any. -/
def mapLookup : FieldMap → String → Option GoValue
  | [], _ => none
  | (k', v) :: rest, k => if k' = k then some v else mapLookup rest k

/-- True iff a value is a nested group (`a.Value.Kind() == slog.KindGroup`). -/
def GoValue.isGroup : GoValue → Bool
  | .vGroup _ => true
  | _ => false

/-- Later-wins combination of optional lookups: the left operand (the
later write) shadows the right one. -/
def oor {α : Type} : Option α → Option α → Option α
  | some v, _ => some v
  | none, b => b

mutual
/-- The recursive closure `processAttr` inside `Handler.collectFields`
(`logger.go`): skip empty keys, recurse into group values with the key
appended to the dotted prefix, and insert scalar values at
`prefix + key`. -/
def processAttr (key : String) (v : GoValue) (pre : String) (fields : FieldMap) :
    FieldMap :=
  if key = "" then fields
  else
    match v with
    | .vGroup g => processGroup g (pre ++ key ++ ".") fields
    | w => mapInsert fields (pre ++ key) w

/-- The inner loop of `processAttr` over a group's members
(`for _, groupAttr := range group`), including the source's redundant
`groupAttr.Key != ""` guard before the recursive call. -/
def processGroup (g : List (String × GoValue)) (pre : String) (fields : FieldMap) :
    FieldMap :=
  match g with
  | [] => fields
  | ga :: rest =>
      processGroup rest pre (if ga.1 ≠ "" then processAttr ga.1 ga.2 pre fields else fields)
end

/-- One of the two top-level passes in `collectFields`: a plain loop calling
`processAttr` on each attribute with the same prefix (used both for
`r.Attrs(...)` and for `for _, a := range h.attrs`). -/
def processAttrs (attrs : List Attr) (pre : String) (fields : FieldMap) : FieldMap :=
  attrs.foldl (fun m a => processAttr a.1 a.2 pre m) fields

/-- Output format selector (`Format` constants `JSON`, `Plain`, `Color`). -/
inductive Format where
  | JSON : Format
  | Plain : Format
  | Color : Format

/-- Configuration (`Options`): the minimum level carried by `SlogOpts`
(`none` models a nil `*slog.HandlerOptions`), the time-format string and
the output format. -/
structure Options where
  slogLevel : Option Int
  timeFormat : String
  format : Format

/-- The constant `DefaultTimeFormat = "[15:05:05.000]"` from `logger.go`.
(Note the layout literally repeats the seconds token `05` where a minutes
token `04` would sit in Go's reference layout.) -/
def DefaultTimeFormat : String := "[15:05:05.000]"

/-- `NewOptions`: substitute the default time format for an empty string. -/
def NewOptions (level : Int) (timeFormat : String) (format : Format) : Options :=
  { slogLevel := some level
    timeFormat := if timeFormat = "" then DefaultTimeFormat else timeFormat
    format := format }

/-- A wall-clock instant as consumed by the time formatter: hour, minute,
second and millisecond of the record's timestamp. -/
structure GoTime where
  hour : Nat
  minute : Nat
  second : Nat
  millis : Nat

/-- Zero-padded two-digit rendering, as Go's layout tokens `15`/`04`/`05`
produce for in-range components. -/
def pad2 (n : Nat) : String :=
  if n < 10 then "0" ++ toString n else toString n

/-- Zero-padded three-digit rendering for the `.000` millisecond token. -/
def pad3 (n : Nat) : String :=
  if n < 10 then "00" ++ toString n
  else if n < 100 then "0" ++ toString n
  else toString n

/-- Go `time.Time.Format` restricted to the reference-layout tokens that
occur in grovelog's time formats: `15` (hour), `04` (minute), `05`
(second) and `.000` (milliseconds); all other characters are literals.
This mirrors Go's layout scanner on such layout strings. -/
def fmtChars : List Char → GoTime → String
  | [], _ => ""
  | '1' :: '5' :: rest, t => pad2 t.hour ++ fmtChars rest t
  | '0' :: '4' :: rest, t => pad2 t.minute ++ fmtChars rest t
  | '0' :: '5' :: rest, t => pad2 t.second ++ fmtChars rest t
  | '.' :: '0' :: '0' :: '0' :: rest, t => "." ++ pad3 t.millis ++ fmtChars rest t
  | c :: rest, t => String.mk [c] ++ fmtChars rest t

/-- Go `t.Format(layout)` for the layouts used here. -/
def goTimeFormat (layout : String) (t : GoTime) : String :=
  fmtChars layout.toList t

/-- A log record (`slog.Record`): timestamp, level, message and the ordered
attribute list added at the call site. -/
structure Record where
  time : GoTime
  level : Int
  msg : String
  attrs : List Attr

/-- The immutable per-instance state of a `Handler` as read by `Handle` and
`collectFields`: configuration, accumulated attributes and group path.
(The `sync.RWMutex` sections of the source guard reads of this state and
are elided in this sequential embedding.) -/
structure PHandler where
  opts : Options
  attrs : List Attr
  groups : List String

/-- `Handler.formatTime`: use the configured time format, falling back to
`DefaultTimeFormat` when it is empty. -/
def formatTime (h : PHandler) (t : GoTime) : String :=
  let format := if h.opts.timeFormat = "" then DefaultTimeFormat else h.opts.timeFormat
  goTimeFormat format t

/-- The `groupPrefix` local of `collectFields`: the accumulated group path
joined with dots and ending in a dot, or empty when there are no groups. -/
def groupPre (h : PHandler) : String :=
  if h.groups.length > 0 then String.intercalate "." h.groups ++ "." else ""

/-- `Handler.collectFields`: build the flat field map for one record. The
record's own attributes are processed first (`r.Attrs(...)`) and the
handler's accumulated attributes after them
(`for _, a := range h.attrs`), both under the same group prefix. -/
def collectFields (h : PHandler) (r : Record) : FieldMap :=
  let fields := processAttrs r.attrs (groupPre h) []
  processAttrs h.attrs (groupPre h) fields

/-- `jsonWriter.Write`: append the encoded bytes to the pooled buffer. -/
def jsonWriterWrite (buf : List Char) (p : List Char) : List Char := buf ++ p

/-- The state of the handler's `bufferPool` interaction for one call:
`none` models a nil `bufferPool` field; `some none` models `Get`
returning something that is not a usable `*[]byte`; `some (some stale)`
models a usable pooled buffer holding stale bytes from a previous use. -/
abbrev PoolState := Option (Option (List Char))

/-- `Handler.marshalFields`, parameterised by the JSON marshaller `mi`
(modelling `json.MarshalIndent(fields, "", "  ")`; per the Go standard
library, `json.Encoder.Encode` with the same indent settings writes
exactly those bytes followed by one `'\n'`). The pooled path clears the
buffer, encodes through `jsonWriterWrite`, strips the encoder's trailing
newline and copies the result out; if the pool is missing or unusable it
falls back to the direct marshal. -/
def marshalFields (mi : FieldMap → Except String (List Char)) (pool : PoolState)
    (fields : FieldMap) : Except String (List Char) :=
  match pool with
  | none => mi fields
  | some none => mi fields
  | some (some _stale) =>
      match mi fields with
      | .error e => .error e
      | .ok enc =>
          let buf : List Char := []
          let buf := jsonWriterWrite buf (enc ++ ['\n'])
          let jsonData := buf
          let jsonData :=
            if jsonData.length > 0 ∧ jsonData.getLast? = some '\n' then
              jsonData.dropLast
            else jsonData
          .ok jsonData

/-- `slog.Level.String()`: the level name with a `+d`/`-d` offset when the
level is not exactly one of the four named levels. -/
def levelToString (l : Int) : String :=
  let str := fun (base : String) (val : Int) =>
    if val = 0 then base
    else if val > 0 then base ++ "+" ++ toString val
    else base ++ toString val
  if l < 0 then str "DEBUG" (l + 4)
  else if l < 4 then str "INFO" l
  else if l < 8 then str "WARN" (l - 4)
  else str "ERROR" (l - 8)

/-- ANSI colour decoration, the contract of the external `fatih/color`
string functions: wrap the text in the colour's escape sequence. -/
def colorWrap (code : Nat) (s : String) : String :=
  "\x1b[" ++ toString code ++ "m" ++ s ++ "\x1b[0m"

/-- The `levelColorMap` lookup in `Handle`: exact matches for the four
standard levels, white for anything else. -/
def levelColorCode (l : Int) : Nat :=
  if l = -4 then 34 else if l = 0 then 32 else if l = 4 then 33 else if l = 8 then 31 else 37

/-- `Handler.Handle`, parameterised by the JSON marshaller `mi`, the sink's
write function `w` and the pool state. Context attributes (the result of
`util.ExtractLogAttrs(ctx)`) are appended to the record (`r.AddAttrs`);
the fields map is collected and, when non-empty, marshalled — a marshal
error is returned to the caller unchanged. The line is then printed with
`h.l.Println`, whose write result is discarded (Go's `log.Logger.Println`
ignores the sink error). The second component records the write attempts
made on the sink together with the sink's response to each. -/
def Handle (mi : FieldMap → Except String (List Char)) (w : String → Except String Unit)
    (pool : PoolState) (h : PHandler) (ctxAttrs : List Attr) (r : Record) :
    Except String Unit × List (String × Except String Unit) :=
  let r1 : Record := { r with attrs := r.attrs ++ ctxAttrs }
  let timeStr := formatTime h r1.time
  let logMsg := r1.msg
  let formatLevel := levelToString r1.level ++ ":"
  let fields := collectFields h r1
  let emit := fun (output : String) =>
    let level := colorWrap (levelColorCode r1.level) formatLevel
    let msgStr := colorWrap 36 logMsg
    let atrs := colorWrap 37 output
    let line := timeStr ++ " " ++ level ++ " " ++ msgStr ++ " " ++ atrs ++ "\n"
    ((Except.ok () : Except String Unit), [(line, w line)])
  if fields.length > 0 then
    match marshalFields mi pool fields with
    | .error e => (.error e, [])
    | .ok out => emit (String.mk out)
  else
    emit ""

/-- `MultiHandler.Handle` over its ordered children (each child abstracted
by its `Handle` result on the given record), instrumented with the number
of children actually invoked: the loop calls each child in order and
returns the first error, skipping the rest. -/
def multiHandle (children : List (Record → Except String Unit)) (r : Record) :
    Except String Unit × Nat :=
  match children with
  | [] => (.ok (), 0)
  | c :: cs =>
      match c r with
      | .error e => (.error e, 1)
      | .ok _ => let p := multiHandle cs r; (p.1, p.2 + 1)

/-- A Go slice header: backing-array identifier and length. (The slices
built by the handler code always view their array from offset 0, so no
offset field is needed.) -/
structure GoSlice where
  arr : Nat
  len : Nat

/-- Read a slice's elements out of a heap of backing arrays. -/
def readSlice {α : Type} (arrays : List (List α)) (s : GoSlice) : List α :=
  (arrays.getD s.arr []).take s.len

/-- Allocate a fresh backing array holding `xs` and return the slice
viewing all of it. -/
def allocSlice {α : Type} (arrays : List (List α)) (xs : List α) :
    List (List α) × GoSlice :=
  (arrays ++ [xs], ⟨arrays.length, xs.length⟩)

/-- `slices.Clone`: copy the elements into a fresh backing array. -/
def cloneSlice {α : Type} (arrays : List (List α)) (s : GoSlice) :
    List (List α) × GoSlice :=
  allocSlice arrays (readSlice arrays s)

/-- `slices.Concat` of a slice and an already-materialised list: a fresh
backing array holding the concatenation. -/
def concatSlice {α : Type} (arrays : List (List α)) (s : GoSlice) (xs : List α) :
    List (List α) × GoSlice :=
  allocSlice arrays (readSlice arrays s ++ xs)

/-- Go's `append(s, x)`: write into the backing array's spare capacity when
there is any (mutating the shared array in place), otherwise move to a
fresh array. -/
def appendSlice {α : Type} (arrays : List (List α)) (s : GoSlice) (x : α) :
    List (List α) × GoSlice :=
  let cells := arrays.getD s.arr []
  if s.len < cells.length then
    (arrays.set s.arr (cells.set s.len x), ⟨s.arr, s.len + 1⟩)
  else
    allocSlice arrays (readSlice arrays s ++ [x])

/-- The heap shared by a derivation tree of Handlers: the backing arrays of
all attribute slices and all group-path slices. -/
structure LogHeap where
  attrArrays : List (List Attr)
  groupArrays : List (List String)

/-- A `*Handler` value: configuration, the identities of the shared
`*log.Logger` and `*sync.Pool`, and the slice headers of its accumulated
attribute list and group path. -/
structure HandlerRef where
  opts : Options
  loggerId : Nat
  poolId : Nat
  attrs : GoSlice
  groups : GoSlice

/-- The state a handler presents to `Handle`/`collectFields`: its slices
resolved against the heap. -/
def view (hp : LogHeap) (h : HandlerRef) : PHandler :=
  { opts := h.opts
    attrs := readSlice hp.attrArrays h.attrs
    groups := readSlice hp.groupArrays h.groups }

/-- `Handler.WithAttrs`: filter out empty-key attributes; if nothing is
left, return the receiver itself; otherwise build a new `Handler` whose
attribute slice is `slices.Concat(slices.Clone(h.attrs), validAttrs)` and
whose group slice is `slices.Clone(h.groups)`, sharing options, logger
and buffer pool. -/
def WithAttrs (hp : LogHeap) (h : HandlerRef) (attrs : List Attr) :
    LogHeap × HandlerRef :=
  let validAttrs := attrs.filter (fun a => a.1 ≠ "")
  if validAttrs.length = 0 then (hp, h)
  else
    let p1 := cloneSlice hp.attrArrays h.attrs
    let p2 := concatSlice p1.1 p1.2 validAttrs
    let p3 := cloneSlice hp.groupArrays h.groups
    ({ attrArrays := p2.1, groupArrays := p3.1 },
     { opts := h.opts, loggerId := h.loggerId, poolId := h.poolId
       attrs := p2.2, groups := p3.2 })

/-- `Handler.WithGroup`: an empty name returns the receiver itself;
otherwise build a new `Handler` with `attrs: slices.Clone(h.attrs)` and
`groups: append(slices.Clone(h.groups), name)`, sharing options, logger
and buffer pool. -/
def WithGroup (hp : LogHeap) (h : HandlerRef) (name : String) :
    LogHeap × HandlerRef :=
  if name = "" then (hp, h)
  else
    let p1 := cloneSlice hp.attrArrays h.attrs
    let p2 := cloneSlice hp.groupArrays h.groups
    let p3 := appendSlice p2.1 p2.2 name
    ({ attrArrays := p1.1, groupArrays := p3.1 },
     { opts := h.opts, loggerId := h.loggerId, poolId := h.poolId
       attrs := p1.2, groups := p3.2 })

/-- A handler reference is well formed in a heap when each of its slices
either points at an existing backing array or is empty (a nil slice). -/
def wfRef (hp : LogHeap) (h : HandlerRef) : Prop :=
  (h.attrs.arr < hp.attrArrays.length ∨ h.attrs.len = 0) ∧
  (h.groups.arr < hp.groupArrays.length ∨ h.groups.len = 0)

/-- The heap of `logCtx` maps reachable from contexts (`util/context.go`):
each `logCtx` is a shared mutable `map[string]any`. -/
structure CtxHeap where
  maps : List FieldMap

/-- A `context.Context` as far as `logCtxKey` is concerned: the stack of
`logCtx` map identifiers installed by `context.WithValue`, most recent
first. `ctx.Value(logCtxKey)` returns the most recent one. -/
abbrev Ctx := List Nat

/-- `getLogCtx`: the `logCtx` map currently carried by the context. -/
def getLogCtx (ctx : Ctx) : Option Nat := ctx.head?

/-- `maps.Copy(dst, src)`: copy every binding of `src` into `dst`. -/
def mapsCopy (dst src : FieldMap) : FieldMap :=
  src.foldl (fun d p => mapInsert d p.1 p.2) dst

/-- `updateLogCtx`: if the context already carries a `logCtx`, copy the new
bindings into that very map (mutating it in place for every context that
shares it) and re-install it; otherwise install the new map. -/
def updateLogCtx (st : CtxHeap) (ctx : Ctx) (newCtx : FieldMap) : CtxHeap × Ctx :=
  match getLogCtx ctx with
  | some id =>
      ({ maps := st.maps.set id (mapsCopy (st.maps.getD id []) newCtx) }, id :: ctx)
  | none =>
      ({ maps := st.maps ++ [newCtx] }, st.maps.length :: ctx)

/-- `UpdateLogCtx(ctx, key, value)`: add one binding via `updateLogCtx`. -/
def UpdateLogCtx (st : CtxHeap) (ctx : Ctx) (key : String) (value : GoValue) :
    CtxHeap × Ctx :=
  updateLogCtx st ctx [(key, value)]

/-- `ExtractLogAttrs`: the attributes stored in the context's `logCtx` map,
or `none` when the context carries no `logCtx`. (Go iterates the map in
unspecified order; the claims below only inspect bindings, never their
order.) -/
def extractLogAttrs (st : CtxHeap) (ctx : Ctx) : Option (List Attr) :=
  (getLogCtx ctx).map (fun id => st.maps.getD id [])

/-- Rendering of a scalar value inside a `key=value` token of the plain
text format. -/
def renderValue : GoValue → String
  | .vInt i => toString i
  | .vStr s => s
  | .vBool b => toString b
  | .vGroup _ => ""

/-- Modelled from the spec: the structured (JSON) output path of
`NewHandler` delegates wholesale to `slog.NewJSONHandler`, whose code is
the Go standard library and not part of this repository. Spec §6:
"structured: one encoded object per line with at least fields `time`,
`level`, `msg`, plus flattened attributes as top-level keys (dotted for
groups)." The flattened attributes are computed with the same dotted-key
flattening contract as §4.1. -/
def specStructuredFields (groups : List String) (r : Record) : FieldMap :=
  let base : FieldMap :=
    [("time", .vStr (goTimeFormat "15:04:05" r.time)),
     ("level", .vStr (levelToString r.level)),
     ("msg", .vStr r.msg)]
  let groupPre := if groups.length > 0 then String.intercalate "." groups ++ "." else ""
  processAttrs r.attrs groupPre base

/-- Modelled from the spec: the plain-text output path of `NewHandler`
delegates wholesale to `slog.NewTextHandler`, whose code is the Go
standard library and not part of this repository. Spec §6: "plain:
`time=<t> level=<L> msg="<m>" key=value ...` space-joined", with group
prefixes dotted onto the keys. These are the `key=value` tokens after the
three fixed fields. -/
def specPlainPairs (groups : List String) (r : Record) : List String :=
  let groupPre := if groups.length > 0 then String.intercalate "." groups ++ "." else ""
  (processAttrs r.attrs groupPre []).map (fun p => p.1 ++ "=" ++ renderValue p.2)


theorem oor_assoc {α : Type} (a b c : Option α) : oor (oor a b) c = oor a (oor b c) := by
  cases a <;> rfl

theorem oor_none_right {α : Type} (a : Option α) : oor a none = a := by
  cases a <;> rfl

theorem processAttr_emptykey (v : GoValue) (pre : String) (m : FieldMap) :
    processAttr "" v pre m = m := by
  unfold processAttr
  simp

theorem processAttr_vGroup (key : String) (hk : ¬ key = "") (g : List (String × GoValue))
    (pre : String) (m : FieldMap) :
    processAttr key (.vGroup g) pre m = processGroup g (pre ++ key ++ ".") m := by
  unfold processAttr
  simp [hk]

theorem processAttr_vInt (key : String) (hk : ¬ key = "") (i : Int)
    (pre : String) (m : FieldMap) :
    processAttr key (.vInt i) pre m = mapInsert m (pre ++ key) (.vInt i) := by
  unfold processAttr
  simp [hk]

theorem processAttr_vStr (key : String) (hk : ¬ key = "") (s : String)
    (pre : String) (m : FieldMap) :
    processAttr key (.vStr s) pre m = mapInsert m (pre ++ key) (.vStr s) := by
  unfold processAttr
  simp [hk]

theorem processAttr_vBool (key : String) (hk : ¬ key = "") (b : Bool)
    (pre : String) (m : FieldMap) :
    processAttr key (.vBool b) pre m = mapInsert m (pre ++ key) (.vBool b) := by
  unfold processAttr
  simp [hk]

theorem processGroup_nil (pre : String) (m : FieldMap) : processGroup [] pre m = m := by
  unfold processGroup
  rfl

theorem processGroup_cons (ga : String × GoValue) (rest : List (String × GoValue))
    (pre : String) (m : FieldMap) :
    processGroup (ga :: rest) pre m
      = processGroup rest pre (if ga.1 ≠ "" then processAttr ga.1 ga.2 pre m else m) := by
  conv_lhs => unfold processGroup

theorem processAttrs_nil (pre : String) (m : FieldMap) : processAttrs [] pre m = m := rfl

theorem processAttrs_cons (a : Attr) (as : List Attr) (pre : String) (m : FieldMap) :
    processAttrs (a :: as) pre m = processAttrs as pre (processAttr a.1 a.2 pre m) := rfl

theorem mapLookup_mapInsert (m : FieldMap) (k : String) (v : GoValue) (q : String) :
    mapLookup (mapInsert m k v) q = if q = k then some v else mapLookup m q := by
  induction m with
  | nil =>
      by_cases hq : q = k
      · subst hq
        simp [mapInsert, mapLookup]
      · simp [mapInsert, mapLookup, hq, Ne.symm hq]
  | cons p rest ih =>
      obtain ⟨pk, pv⟩ := p
      by_cases hpk : pk = k
      · subst hpk
        by_cases hq : q = pk
        · subst hq
          simp [mapInsert, mapLookup]
        · simp [mapInsert, mapLookup, hq, Ne.symm hq]
      · by_cases hq : q = k
        · subst hq
          simp [mapInsert, mapLookup, hpk, ih]
        · by_cases hpq : pk = q <;> simp [mapInsert, mapLookup, hpk, hpq, ih, hq]

theorem processAttr_override (key : String) (v : GoValue) (pre : String) (m : FieldMap)
    (q : String) :
    mapLookup (processAttr key v pre m) q
      = oor (mapLookup (processAttr key v pre []) q) (mapLookup m q) := by
  refine processAttr.induct
    (fun key v pre _ => ∀ m q, mapLookup (processAttr key v pre m) q
        = oor (mapLookup (processAttr key v pre []) q) (mapLookup m q))
    (fun g pre _ => ∀ m q, mapLookup (processGroup g pre m) q
        = oor (mapLookup (processGroup g pre []) q) (mapLookup m q))
    ?hempty ?hgroup ?hscalar ?hnil ?hcons key v pre [] m q
  case hempty =>
    intro t pre fields m q
    rw [processAttr_emptykey, processAttr_emptykey]
    rfl
  case hgroup =>
    intro key pre fields hkey g ihg m q
    rw [processAttr_vGroup key hkey g pre m, processAttr_vGroup key hkey g pre []]
    exact ihg m q
  case hscalar =>
    intro w key pre fields hkey hng m q
    cases w with
    | vGroup g => exact absurd rfl (hng g)
    | vInt i =>
        rw [processAttr_vInt key hkey i pre m, processAttr_vInt key hkey i pre [],
            mapLookup_mapInsert, mapLookup_mapInsert]
        by_cases hq : q = pre ++ key
        · rw [if_pos hq, if_pos hq]
          rfl
        · rw [if_neg hq, if_neg hq]
          rfl
    | vStr s =>
        rw [processAttr_vStr key hkey s pre m, processAttr_vStr key hkey s pre [],
            mapLookup_mapInsert, mapLookup_mapInsert]
        by_cases hq : q = pre ++ key
        · rw [if_pos hq, if_pos hq]
          rfl
        · rw [if_neg hq, if_neg hq]
          rfl
    | vBool b =>
        rw [processAttr_vBool key hkey b pre m, processAttr_vBool key hkey b pre [],
            mapLookup_mapInsert, mapLookup_mapInsert]
        by_cases hq : q = pre ++ key
        · rw [if_pos hq, if_pos hq]
          rfl
        · rw [if_neg hq, if_neg hq]
          rfl
  case hnil =>
    intro pre fields m q
    rw [processGroup_nil, processGroup_nil]
    rfl
  case hcons =>
    intro pre fields ga rest iha ihr m q
    rw [processGroup_cons, processGroup_cons]
    by_cases hga : ga.1 = ""
    · rw [if_neg (by simp [hga]), if_neg (by simp [hga])]
      exact ihr m q
    · rw [if_pos (by simp [hga]), if_pos (by simp [hga])]
      rw [ihr (processAttr ga.1 ga.2 pre m) q, iha m q,
          ihr (processAttr ga.1 ga.2 pre []) q, oor_assoc]

theorem processAttrs_override (attrs : List Attr) (pre : String) :
    ∀ (m : FieldMap) (q : String),
      mapLookup (processAttrs attrs pre m) q
        = oor (mapLookup (processAttrs attrs pre []) q) (mapLookup m q) := by
  induction attrs with
  | nil =>
      intro m q
      rw [processAttrs_nil, processAttrs_nil]
      rfl
  | cons a as ih =>
      intro m q
      rw [processAttrs_cons, processAttrs_cons,
          ih (processAttr a.1 a.2 pre m) q, processAttr_override a.1 a.2 pre m q,
          ih (processAttr a.1 a.2 pre []) q, oor_assoc]

/-- C1 (amended): flattening processes the record's own attributes first and
the accumulated handler ('with') attributes after them, with later
entries overwriting earlier ones on collision — so when the handler's
accumulated attributes flatten to a binding for a key, the value emitted
by `collectFields` for that key is the handler-level value, which takes
precedence over any per-call (record) attribute sharing that flattened
key. -/
theorem c1_handler_precedence (h : PHandler) (r : Record) (q : String) (v : GoValue)
    (hv : mapLookup (processAttrs h.attrs (groupPre h) []) q = some v) :
    mapLookup (collectFields h r) q = some v := by
  unfold collectFields
  rw [processAttrs_override h.attrs (groupPre h) (processAttrs r.attrs (groupPre h) []) q, hv]
  rfl

/-- C1 witness: handler attribute `key1=1`, record attribute `key1=2`; the
emitted value is the handler's `1`. -/
theorem c1_witness :
    mapLookup (processAttrs [("key1", GoValue.vInt 1)]
        (groupPre ⟨NewOptions 0 "" Format.Color, [("key1", GoValue.vInt 1)], []⟩) []) "key1"
      = some (GoValue.vInt 1) ∧
    mapLookup (collectFields ⟨NewOptions 0 "" Format.Color, [("key1", GoValue.vInt 1)], []⟩
        ⟨⟨0, 0, 0, 0⟩, 0, "m", [("key1", GoValue.vInt 2)]⟩) "key1"
      = some (GoValue.vInt 1) :=
  ⟨rfl, c1_handler_precedence ⟨NewOptions 0 "" Format.Color, [("key1", GoValue.vInt 1)], []⟩
    ⟨⟨0, 0, 0, 0⟩, 0, "m", [("key1", GoValue.vInt 2)]⟩ "key1" (GoValue.vInt 1) rfl⟩

/-- C1 counterexample: with handler-level `key1=1` and record-level
`key1=2`, `collectFields` emits `key1=1` — the record-level value `2`
does not appear, refuting the claim as stated (record attributes taking
precedence). -/
theorem c1_counterexample :
    mapLookup (collectFields ⟨NewOptions 0 "" Format.Color, [("key1", GoValue.vInt 1)], []⟩
        ⟨⟨0, 0, 0, 0⟩, 0, "m", [("key1", GoValue.vInt 2)]⟩) "key1"
      = some (GoValue.vInt 1) ∧
    ¬ (mapLookup (collectFields ⟨NewOptions 0 "" Format.Color, [("key1", GoValue.vInt 1)], []⟩
        ⟨⟨0, 0, 0, 0⟩, 0, "m", [("key1", GoValue.vInt 2)]⟩) "key1"
      = some (GoValue.vInt 2)) := by
  constructor
  · rfl
  · rw [show mapLookup (collectFields ⟨NewOptions 0 "" Format.Color, [("key1", GoValue.vInt 1)], []⟩
        ⟨⟨0, 0, 0, 0⟩, 0, "m", [("key1", GoValue.vInt 2)]⟩) "key1" = some (GoValue.vInt 1) from rfl]
    simp

/-- C5: `MultiHandler.Handle` invokes each child's `Handle` in order and
stops at and returns the first error encountered — children after the
first failing child are not invoked for that call (the invocation count
is the failing child's index plus one), and `Handle` returns success iff
every child succeeds (in which case all children are invoked). -/
theorem c5_multihandler_failfast :
    (∀ (children : List (Record → Except String Unit)) (r : Record),
        (multiHandle children r).1 = Except.ok () ↔ ∀ c ∈ children, c r = Except.ok ()) ∧
    (∀ (children : List (Record → Except String Unit)) (r : Record) (i : Nat)
        (hi : i < children.length) (e : String),
        (∀ (j : Nat) (hj : j < i), children.get ⟨j, lt_trans hj hi⟩ r = Except.ok ()) →
        children.get ⟨i, hi⟩ r = Except.error e →
        (multiHandle children r).1 = Except.error e ∧ (multiHandle children r).2 = i + 1) ∧
    (∀ (children : List (Record → Except String Unit)) (r : Record),
        (∀ c ∈ children, c r = Except.ok ()) → (multiHandle children r).2 = children.length) := by
  refine ⟨?ok, ?fail, ?count⟩
  case ok =>
    intro children r
    induction children with
    | nil => simp [multiHandle]
    | cons c cs ih =>
        cases hc : c r with
        | error e => simp [multiHandle, hc]
        | ok u => cases u; simp [multiHandle, hc, ih]
  case fail =>
    intro children r i hi e
    induction children generalizing i with
    | nil => exact absurd hi (Nat.not_lt_zero i)
    | cons c cs ih =>
        intro hprev hfail
        cases i with
        | zero =>
            have hc : c r = Except.error e := hfail
            simp [multiHandle, hc]
        | succ i =>
            have hc : c r = Except.ok () := hprev 0 (Nat.succ_pos i)
            have hlt : i < cs.length := Nat.lt_of_succ_lt_succ hi
            have hrest := ih i hlt (fun j hj => hprev (j + 1) (Nat.succ_lt_succ hj)) hfail
            simp only [multiHandle, hc]
            exact ⟨hrest.1, by rw [hrest.2]⟩
  case count =>
    intro children r
    induction children with
    | nil => intro _; rfl
    | cons c cs ih =>
        intro hall
        have hc : c r = Except.ok () := hall c (List.mem_cons_self c cs)
        simp only [multiHandle, hc, List.length_cons]
        rw [ih (fun c' hc' => hall c' (List.mem_cons_of_mem c hc'))]

/-- C5 witness: two children, the first fails with "boom" — `Handle`
returns that error and only one child was invoked. -/
theorem c5_witness :
    (multiHandle [fun _ => Except.error "boom", fun _ => Except.ok ()]
        ⟨⟨0, 0, 0, 0⟩, 0, "m", []⟩).1 = Except.error "boom" ∧
    (multiHandle [fun _ => Except.error "boom", fun _ => Except.ok ()]
        ⟨⟨0, 0, 0, 0⟩, 0, "m", []⟩).2 = 1 :=
  c5_multihandler_failfast.2.1 [fun _ => Except.error "boom", fun _ => Except.ok ()]
    ⟨⟨0, 0, 0, 0⟩, 0, "m", []⟩ 0 (by simp) "boom"
    (fun j hj => absurd hj (Nat.not_lt_zero j)) rfl

/-- C9: `marshalFields` produces output equal to the direct non-pooled
encode on every pool state — in particular it never fails solely because
the pool is absent (`none`) or yields an unusable buffer (`some none`),
and the same input mapping yields identical output across calls
regardless of the pool's stale contents. -/
theorem c9_marshal_pool_equiv :
    ∀ (mi : FieldMap → Except String (List Char)) (pool pool2 : PoolState)
      (fields : FieldMap),
      marshalFields mi pool fields = mi fields ∧
      marshalFields mi pool fields = marshalFields mi pool2 fields := by
  have main : ∀ (mi : FieldMap → Except String (List Char)) (p : PoolState)
      (fields : FieldMap), marshalFields mi p fields = mi fields := by
    intro mi p fields
    match p with
    | none => rfl
    | some none => rfl
    | some (some stale) =>
        cases hmi : mi fields with
        | error e => simp [marshalFields, hmi]
        | ok enc =>
            simp [marshalFields, hmi, jsonWriterWrite, List.getLast?_concat,
                  List.dropLast_concat]
  intro mi pool pool2 fields
  exact ⟨main mi pool fields, (main mi pool fields).trans (main mi pool2 fields).symm⟩

/-- C2 (amended): `Handle` returns an error exactly when the collected
fields map is non-empty and marshalling it fails, and it propagates that
encoding error unchanged. A failed write to the destination sink is NOT
surfaced: the line printer discards the sink's result, so the outcome of
`Handle` is independent of the write function. -/
theorem c2_handle_error_propagation :
    ∀ (mi : FieldMap → Except String (List Char)) (w : String → Except String Unit)
      (pool : PoolState) (h : PHandler) (ctxAttrs : List Attr) (r : Record) (e : String),
      ((Handle mi w pool h ctxAttrs r).1 = Except.error e ↔
        ((collectFields h { r with attrs := r.attrs ++ ctxAttrs }).length > 0 ∧
          marshalFields mi pool (collectFields h { r with attrs := r.attrs ++ ctxAttrs })
            = Except.error e)) ∧
      (∀ w2 : String → Except String Unit,
        (Handle mi w pool h ctxAttrs r).1 = (Handle mi w2 pool h ctxAttrs r).1) := by
  intro mi w pool h ctxAttrs r e
  constructor
  · by_cases hlen : (collectFields h { r with attrs := r.attrs ++ ctxAttrs }).length > 0
    · cases hm : marshalFields mi pool (collectFields h { r with attrs := r.attrs ++ ctxAttrs }) with
      | error e2 => simp [Handle, hlen, hm]
      | ok out => simp [Handle, hlen, hm]
    · simp [Handle, hlen]
  · intro w2
    by_cases hlen : (collectFields h { r with attrs := r.attrs ++ ctxAttrs }).length > 0
    · cases hm : marshalFields mi pool (collectFields h { r with attrs := r.attrs ++ ctxAttrs }) with
      | error e2 => simp [Handle, hlen, hm]
      | ok out => simp [Handle, hlen, hm]
    · simp [Handle, hlen]

/-- C2 counterexample: encoding succeeds but the sink write fails
("disk full"); `Handle` still returns success and the failed write's
error is visibly discarded — refuting "a failed write to the destination
sink is also surfaced". -/
theorem c2_counterexample :
    (Handle (fun _ => Except.ok ['x']) (fun _ => Except.error "disk full") none
        ⟨NewOptions 0 "" Format.Color, [], []⟩ []
        ⟨⟨0, 0, 0, 0⟩, 0, "m", [("k", GoValue.vInt 1)]⟩).1 = Except.ok () ∧
    ((Handle (fun _ => Except.ok ['x']) (fun _ => Except.error "disk full") none
        ⟨NewOptions 0 "" Format.Color, [], []⟩ []
        ⟨⟨0, 0, 0, 0⟩, 0, "m", [("k", GoValue.vInt 1)]⟩).2.map (fun p => p.2))
      = [Except.error "disk full"] :=
  ⟨rfl, rfl⟩

/-- C4: evaluating the code's time formatting at the repository
documentation's example instant 10:30:45.123, with the configured time
format empty (so `DefaultTimeFormat = "[15:05:05.000]"` applies),
`formatTime` renders "[10:45:45.123]": the middle colon-separated
component is the record's seconds (45), not its minutes (30), because
the layout constant repeats the seconds token `05` where the minutes
token `04` belongs. This contradicts the documented
`[HH:MM:SS.mmm]`-style default. -/
theorem c4_default_time_format_bug :
    formatTime ⟨NewOptions 0 "" Format.Color, [], []⟩ ⟨10, 30, 45, 123⟩ = "[10:45:45.123]" ∧
    formatTime ⟨NewOptions 0 "" Format.Color, [], []⟩ ⟨10, 30, 45, 123⟩ ≠ "[10:30:45.123]" :=
  ⟨rfl, by decide⟩

theorem append_ne_empty (a b : String) (h : ¬ b = "") : ¬ (a ++ b) = "" := by
  intro hc
  apply h
  have hd : (a ++ b).data = ([] : List Char) := by rw [hc]
  rw [String.data_append] at hd
  exact String.ext (List.append_eq_nil.mp hd).2

theorem mapLookup_processAttr_empty (key : String) (v : GoValue) (pre : String)
    (m : FieldMap) (hm : mapLookup m "" = none) :
    mapLookup (processAttr key v pre m) "" = none := by
  refine processAttr.induct
    (fun key v pre _ => ∀ m, mapLookup m "" = none →
        mapLookup (processAttr key v pre m) "" = none)
    (fun g pre _ => ∀ m, mapLookup m "" = none →
        mapLookup (processGroup g pre m) "" = none)
    ?e1 ?e2 ?e3 ?e4 ?e5 key v pre [] m hm
  case e1 =>
    intro t pre _ m hm
    rw [processAttr_emptykey]
    exact hm
  case e2 =>
    intro key pre _ hkey g ihg m hm
    rw [processAttr_vGroup key hkey]
    exact ihg m hm
  case e3 =>
    intro w key pre _ hkey hng m hm
    cases w with
    | vGroup g => exact absurd rfl (hng g)
    | vInt i =>
        rw [processAttr_vInt key hkey, mapLookup_mapInsert,
            if_neg (fun hc => append_ne_empty pre key hkey hc.symm)]
        exact hm
    | vStr s =>
        rw [processAttr_vStr key hkey, mapLookup_mapInsert,
            if_neg (fun hc => append_ne_empty pre key hkey hc.symm)]
        exact hm
    | vBool b =>
        rw [processAttr_vBool key hkey, mapLookup_mapInsert,
            if_neg (fun hc => append_ne_empty pre key hkey hc.symm)]
        exact hm
  case e4 =>
    intro pre _ m hm
    rw [processGroup_nil]
    exact hm
  case e5 =>
    intro pre _ ga rest iha ihr m hm
    rw [processGroup_cons]
    by_cases hga : ga.1 = ""
    · rw [if_neg (by simp [hga])]
      exact ihr m hm
    · rw [if_pos (by simp [hga])]
      exact ihr (processAttr ga.1 ga.2 pre m) (iha m hm)

theorem mapLookup_processAttrs_empty (attrs : List Attr) (pre : String) (m : FieldMap)
    (hm : mapLookup m "" = none) :
    mapLookup (processAttrs attrs pre m) "" = none := by
  induction attrs generalizing m with
  | nil => rw [processAttrs_nil]; exact hm
  | cons a as ih =>
      rw [processAttrs_cons]
      exact ih (processAttr a.1 a.2 pre m) (mapLookup_processAttr_empty a.1 a.2 pre m hm)

/-- C8: an attribute with an empty key never appears in any output:
`processAttr` drops it at the top level, an empty-key attribute inside a
nested group contributes no entry at any depth, every key in the
flattened mapping of `collectFields` is non-empty, and `WithAttrs`
filters empty-key attributes out of its argument at derivation time. -/
theorem c8_empty_key_dropped :
    (∀ (v : GoValue) (pre : String) (m : FieldMap), processAttr "" v pre m = m) ∧
    (∀ (g1 g2 : List (String × GoValue)) (v : GoValue) (pre : String) (m : FieldMap),
        processGroup (g1 ++ ("", v) :: g2) pre m = processGroup (g1 ++ g2) pre m) ∧
    (∀ (h : PHandler) (r : Record), mapLookup (collectFields h r) "" = none) ∧
    (∀ (hp : LogHeap) (h : HandlerRef) (v : GoValue) (rest : List Attr),
        WithAttrs hp h (("", v) :: rest) = WithAttrs hp h rest) := by
  refine ⟨processAttr_emptykey, ?nested, ?flat, ?deriv⟩
  case nested =>
    intro g1 g2 v pre m
    induction g1 generalizing m with
    | nil =>
        rw [List.nil_append, List.nil_append, processGroup_cons]
        simp
    | cons ga g1 ih =>
        rw [List.cons_append, List.cons_append, processGroup_cons, processGroup_cons]
        exact ih _
  case flat =>
    intro h r
    unfold collectFields
    exact mapLookup_processAttrs_empty h.attrs (groupPre h) _
      (mapLookup_processAttrs_empty r.attrs (groupPre h) [] rfl)
  case deriv =>
    intro hp h v rest
    unfold WithAttrs
    rw [show (("", v) :: rest).filter (fun a => a.1 ≠ "") = rest.filter (fun a => a.1 ≠ "")
          from by simp]

theorem getD_append_self {α : Type} (l : List (List α)) (xs : List α) :
    (l ++ [xs]).getD l.length [] = xs := by
  induction l with
  | nil => rfl
  | cons a l ih =>
      simp only [List.cons_append, List.length_cons, List.getD_cons_succ]
      exact ih

theorem readSlice_alloc {α : Type} (arrays : List (List α)) (xs : List α) :
    readSlice (allocSlice arrays xs).1 (allocSlice arrays xs).2 = xs := by
  simp [readSlice, allocSlice, getD_append_self, List.take_length]

theorem readSlice_extend {α : Type} (arrays ext : List (List α)) (s : GoSlice)
    (hs : s.arr < arrays.length ∨ s.len = 0) :
    readSlice (arrays ++ ext) s = readSlice arrays s := by
  rcases hs with hs | hs
  · have hg : (arrays ++ ext)[s.arr]? = arrays[s.arr]? := List.getElem?_append_left hs
    simp [readSlice, List.getD_eq_getElem?_getD, hg]
  · simp [readSlice, hs]

theorem cloneSlice_fst {α : Type} (A : List (List α)) (s : GoSlice) :
    (cloneSlice A s).1 = A ++ [readSlice A s] := rfl

theorem cloneSlice_read {α : Type} (A : List (List α)) (s : GoSlice) :
    readSlice (cloneSlice A s).1 (cloneSlice A s).2 = readSlice A s :=
  readSlice_alloc A (readSlice A s)

theorem concatSlice_read {α : Type} (A : List (List α)) (s : GoSlice) (xs : List α) :
    readSlice (concatSlice A s xs).1 (concatSlice A s xs).2 = readSlice A s ++ xs :=
  readSlice_alloc A (readSlice A s ++ xs)

theorem appendSlice_after_clone {α : Type} (A : List (List α)) (s : GoSlice) (x : α) :
    readSlice (appendSlice (cloneSlice A s).1 (cloneSlice A s).2 x).1
        (appendSlice (cloneSlice A s).1 (cloneSlice A s).2 x).2
      = readSlice A s ++ [x] := by
  have hcells : ((cloneSlice A s).1.getD (cloneSlice A s).2.arr []) = readSlice A s :=
    getD_append_self A (readSlice A s)
  have hread : readSlice (cloneSlice A s).1 (cloneSlice A s).2 = readSlice A s :=
    cloneSlice_read A s
  have hlen : (cloneSlice A s).2.len = (readSlice A s).length := rfl
  simp only [appendSlice, hcells, hread, hlen]
  rw [if_neg (lt_irrefl (readSlice A s).length)]
  exact readSlice_alloc (cloneSlice A s).1 (readSlice A s ++ [x])

theorem withAttrs_heap_shape (hp : LogHeap) (h : HandlerRef) (delta : List Attr) :
    (∃ ea, (WithAttrs hp h delta).1.attrArrays = hp.attrArrays ++ ea) ∧
    (∃ eg, (WithAttrs hp h delta).1.groupArrays = hp.groupArrays ++ eg) ∧
    readSlice (WithAttrs hp h delta).1.attrArrays (WithAttrs hp h delta).2.attrs
      = readSlice hp.attrArrays h.attrs ++ delta.filter (fun a => a.1 ≠ "") ∧
    readSlice (WithAttrs hp h delta).1.groupArrays (WithAttrs hp h delta).2.groups
      = readSlice hp.groupArrays h.groups ∧
    (WithAttrs hp h delta).2.opts = h.opts ∧
    (WithAttrs hp h delta).2.loggerId = h.loggerId ∧
    (WithAttrs hp h delta).2.poolId = h.poolId := by
  unfold WithAttrs
  by_cases hv : (delta.filter (fun a => a.1 ≠ "")).length = 0
  · rw [if_pos hv]
    refine ⟨⟨[], by simp⟩, ⟨[], by simp⟩, ?_, by simp, rfl, rfl, rfl⟩
    have hnil : delta.filter (fun a => a.1 ≠ "") = [] := List.length_eq_zero.mp hv
    rw [hnil, List.append_nil]
  · rw [if_neg hv]
    refine ⟨⟨[readSlice hp.attrArrays h.attrs,
              readSlice hp.attrArrays h.attrs ++ delta.filter (fun a => a.1 ≠ "")], ?_⟩,
            ⟨[readSlice hp.groupArrays h.groups], rfl⟩, ?_, ?_, rfl, rfl, rfl⟩
    · show ((hp.attrArrays ++ [readSlice hp.attrArrays h.attrs]) ++
          [readSlice (cloneSlice hp.attrArrays h.attrs).1 (cloneSlice hp.attrArrays h.attrs).2
            ++ delta.filter (fun a => a.1 ≠ "")]) = _
      rw [cloneSlice_read, List.append_assoc]
      rfl
    · show readSlice (concatSlice (cloneSlice hp.attrArrays h.attrs).1
          (cloneSlice hp.attrArrays h.attrs).2 (delta.filter (fun a => a.1 ≠ ""))).1
          (concatSlice (cloneSlice hp.attrArrays h.attrs).1
            (cloneSlice hp.attrArrays h.attrs).2 (delta.filter (fun a => a.1 ≠ ""))).2 = _
      rw [concatSlice_read, cloneSlice_read]
    · exact cloneSlice_read hp.groupArrays h.groups

theorem withGroup_heap_shape (hp : LogHeap) (h : HandlerRef) (name : String) :
    (∃ ea, (WithGroup hp h name).1.attrArrays = hp.attrArrays ++ ea) ∧
    (∃ eg, (WithGroup hp h name).1.groupArrays = hp.groupArrays ++ eg) ∧
    readSlice (WithGroup hp h name).1.groupArrays (WithGroup hp h name).2.groups
      = readSlice hp.groupArrays h.groups ++ (if name = "" then [] else [name]) ∧
    readSlice (WithGroup hp h name).1.attrArrays (WithGroup hp h name).2.attrs
      = readSlice hp.attrArrays h.attrs ∧
    (WithGroup hp h name).2.opts = h.opts ∧
    (WithGroup hp h name).2.loggerId = h.loggerId ∧
    (WithGroup hp h name).2.poolId = h.poolId := by
  unfold WithGroup
  by_cases hn : name = ""
  · rw [if_pos hn, if_pos hn]
    exact ⟨⟨[], by simp⟩, ⟨[], by simp⟩, by simp, rfl, rfl, rfl, rfl⟩
  · rw [if_neg hn]
    refine ⟨⟨[readSlice hp.attrArrays h.attrs], rfl⟩,
            ⟨[readSlice hp.groupArrays h.groups,
              readSlice hp.groupArrays h.groups ++ [name]], ?_⟩, ?_, ?_, rfl, rfl, rfl⟩
    · show (appendSlice (cloneSlice hp.groupArrays h.groups).1
          (cloneSlice hp.groupArrays h.groups).2 name).1 = _
      have hcells : ((cloneSlice hp.groupArrays h.groups).1.getD
          (cloneSlice hp.groupArrays h.groups).2.arr []) = readSlice hp.groupArrays h.groups :=
        getD_append_self hp.groupArrays (readSlice hp.groupArrays h.groups)
      have hread : readSlice (cloneSlice hp.groupArrays h.groups).1
          (cloneSlice hp.groupArrays h.groups).2 = readSlice hp.groupArrays h.groups :=
        cloneSlice_read hp.groupArrays h.groups
      have hlen : (cloneSlice hp.groupArrays h.groups).2.len
          = (readSlice hp.groupArrays h.groups).length := rfl
      simp only [appendSlice, hcells, hread, hlen]
      rw [if_neg (lt_irrefl (readSlice hp.groupArrays h.groups).length)]
      show (hp.groupArrays ++ [readSlice hp.groupArrays h.groups])
          ++ [readSlice hp.groupArrays h.groups ++ [name]] = _
      rw [List.append_assoc]
      rfl
    · show readSlice (appendSlice (cloneSlice hp.groupArrays h.groups).1
          (cloneSlice hp.groupArrays h.groups).2 name).1
          (appendSlice (cloneSlice hp.groupArrays h.groups).1
            (cloneSlice hp.groupArrays h.groups).2 name).2 = _
      rw [appendSlice_after_clone, if_neg hn]
    · exact cloneSlice_read hp.attrArrays h.attrs

/-- C6: derivation is immutable. Every `WithAttrs`/`WithGroup` call only
extends the heap of backing arrays (existing arrays, and hence every
existing handler's attribute list and group path, are never mutated in
place); the parent handler's resolved state, and therefore the flattened
fields it produces for every record, are unchanged by the derivation;
and the child's resolved attribute list and group path extend the
parent's (records logged through the child never lose the parent's
attributes or groups, while records logged through the parent never gain
the child's). -/
theorem c6_derivation_immutable :
    ∀ (hp : LogHeap) (h : HandlerRef) (delta : List Attr) (name : String),
      wfRef hp h →
      ((∃ ea, (WithAttrs hp h delta).1.attrArrays = hp.attrArrays ++ ea) ∧
       (∃ eg, (WithAttrs hp h delta).1.groupArrays = hp.groupArrays ++ eg) ∧
       view (WithAttrs hp h delta).1 h = view hp h ∧
       (∀ r, collectFields (view (WithAttrs hp h delta).1 h) r
          = collectFields (view hp h) r) ∧
       readSlice (WithAttrs hp h delta).1.attrArrays (WithAttrs hp h delta).2.attrs
         = readSlice hp.attrArrays h.attrs ++ delta.filter (fun a => a.1 ≠ "") ∧
       readSlice (WithAttrs hp h delta).1.groupArrays (WithAttrs hp h delta).2.groups
         = readSlice hp.groupArrays h.groups) ∧
      ((∃ ea, (WithGroup hp h name).1.attrArrays = hp.attrArrays ++ ea) ∧
       (∃ eg, (WithGroup hp h name).1.groupArrays = hp.groupArrays ++ eg) ∧
       view (WithGroup hp h name).1 h = view hp h ∧
       (∀ r, collectFields (view (WithGroup hp h name).1 h) r
          = collectFields (view hp h) r) ∧
       readSlice (WithGroup hp h name).1.groupArrays (WithGroup hp h name).2.groups
         = readSlice hp.groupArrays h.groups ++ (if name = "" then [] else [name]) ∧
       readSlice (WithGroup hp h name).1.attrArrays (WithGroup hp h name).2.attrs
         = readSlice hp.attrArrays h.attrs) := by
  intro hp h delta name hwf
  obtain ⟨⟨ea, hea⟩, ⟨eg, heg⟩, haread, hgread, _, _, _⟩ := withAttrs_heap_shape hp h delta
  obtain ⟨⟨ea2, hea2⟩, ⟨eg2, heg2⟩, hgread2, haread2, _, _, _⟩ := withGroup_heap_shape hp h name
  have hva : view (WithAttrs hp h delta).1 h = view hp h := by
    unfold view
    rw [hea, heg, readSlice_extend hp.attrArrays ea h.attrs hwf.1,
        readSlice_extend hp.groupArrays eg h.groups hwf.2]
  have hvg : view (WithGroup hp h name).1 h = view hp h := by
    unfold view
    rw [hea2, heg2, readSlice_extend hp.attrArrays ea2 h.attrs hwf.1,
        readSlice_extend hp.groupArrays eg2 h.groups hwf.2]
  exact ⟨⟨⟨ea, hea⟩, ⟨eg, heg⟩, hva, fun r => by rw [hva], haread, hgread⟩,
         ⟨⟨ea2, hea2⟩, ⟨eg2, heg2⟩, hvg, fun r => by rw [hvg], hgread2, haread2⟩⟩

/-- C6 witness: a well-formed one-array heap; deriving with an attribute
delta leaves the parent's resolved state (and hence its output fields)
unchanged. -/
theorem c6_witness :
    wfRef ⟨[[("a", GoValue.vInt 1)]], [["g"]]⟩
      ⟨NewOptions 0 "" Format.Color, 0, 0, ⟨0, 1⟩, ⟨0, 1⟩⟩ ∧
    view (WithAttrs ⟨[[("a", GoValue.vInt 1)]], [["g"]]⟩
        ⟨NewOptions 0 "" Format.Color, 0, 0, ⟨0, 1⟩, ⟨0, 1⟩⟩ [("k", GoValue.vInt 2)]).1
      ⟨NewOptions 0 "" Format.Color, 0, 0, ⟨0, 1⟩, ⟨0, 1⟩⟩
      = view ⟨[[("a", GoValue.vInt 1)]], [["g"]]⟩
          ⟨NewOptions 0 "" Format.Color, 0, 0, ⟨0, 1⟩, ⟨0, 1⟩⟩ :=
  have hwf : wfRef ⟨[[("a", GoValue.vInt 1)]], [["g"]]⟩
      ⟨NewOptions 0 "" Format.Color, 0, 0, ⟨0, 1⟩, ⟨0, 1⟩⟩ :=
    ⟨Or.inl (by decide), Or.inl (by decide)⟩
  ⟨hwf, ((c6_derivation_immutable ⟨[[("a", GoValue.vInt 1)]], [["g"]]⟩
      ⟨NewOptions 0 "" Format.Color, 0, 0, ⟨0, 1⟩, ⟨0, 1⟩⟩
      [("k", GoValue.vInt 2)] "x" hwf).1).2.2.1⟩

/-- C7: empty derivations are identities — `WithAttrs` drops empty-key
attributes and returns the very same handler and heap when the filtered
delta is empty (no allocation), `WithGroup` with an empty name returns
the very same handler and heap; otherwise the derived handler's resolved
attribute list (resp. group path) is the parent's with the filtered
delta (resp. the name) appended, with options, logger and buffer pool
shared. -/
theorem c7_empty_derivation_identity :
    ∀ (hp : LogHeap) (h : HandlerRef) (delta : List Attr) (name : String),
      ((delta.filter (fun a => a.1 ≠ "")).length = 0 → WithAttrs hp h delta = (hp, h)) ∧
      (WithGroup hp h "" = (hp, h)) ∧
      (readSlice (WithAttrs hp h delta).1.attrArrays (WithAttrs hp h delta).2.attrs
         = readSlice hp.attrArrays h.attrs ++ delta.filter (fun a => a.1 ≠ "") ∧
       readSlice (WithAttrs hp h delta).1.groupArrays (WithAttrs hp h delta).2.groups
         = readSlice hp.groupArrays h.groups ∧
       (WithAttrs hp h delta).2.opts = h.opts ∧
       (WithAttrs hp h delta).2.loggerId = h.loggerId ∧
       (WithAttrs hp h delta).2.poolId = h.poolId) ∧
      (name ≠ "" →
       readSlice (WithGroup hp h name).1.groupArrays (WithGroup hp h name).2.groups
         = readSlice hp.groupArrays h.groups ++ [name] ∧
       readSlice (WithGroup hp h name).1.attrArrays (WithGroup hp h name).2.attrs
         = readSlice hp.attrArrays h.attrs ∧
       (WithGroup hp h name).2.opts = h.opts ∧
       (WithGroup hp h name).2.loggerId = h.loggerId ∧
       (WithGroup hp h name).2.poolId = h.poolId) := by
  intro hp h delta name
  obtain ⟨_, _, haread, hgread, hopts, hlog, hpool⟩ := withAttrs_heap_shape hp h delta
  obtain ⟨_, _, hgread2, haread2, hopts2, hlog2, hpool2⟩ := withGroup_heap_shape hp h name
  refine ⟨?ident, ?gident, ⟨haread, hgread, hopts, hlog, hpool⟩, ?gshape⟩
  case ident =>
    intro h0
    unfold WithAttrs
    rw [if_pos h0]
  case gident =>
    unfold WithGroup
    rw [if_pos rfl]
  case gshape =>
    intro hn
    rw [if_neg hn] at hgread2
    exact ⟨hgread2, haread2, hopts2, hlog2, hpool2⟩

/-- C7 witness: a delta holding only an empty-key attribute derives the
identical handler and heap, and `WithGroup "b"` appends exactly "b" to
the resolved group path. -/
theorem c7_witness :
    WithAttrs ⟨[], []⟩ ⟨NewOptions 0 "" Format.Color, 0, 0, ⟨0, 0⟩, ⟨0, 0⟩⟩
        [("", GoValue.vInt 1)]
      = (⟨[], []⟩, ⟨NewOptions 0 "" Format.Color, 0, 0, ⟨0, 0⟩, ⟨0, 0⟩⟩) ∧
    readSlice (WithGroup ⟨[], []⟩ ⟨NewOptions 0 "" Format.Color, 0, 0, ⟨0, 0⟩, ⟨0, 0⟩⟩ "b").1.groupArrays
        (WithGroup ⟨[], []⟩ ⟨NewOptions 0 "" Format.Color, 0, 0, ⟨0, 0⟩, ⟨0, 0⟩⟩ "b").2.groups
      = readSlice (⟨[], []⟩ : LogHeap).groupArrays
          (⟨NewOptions 0 "" Format.Color, 0, 0, ⟨0, 0⟩, ⟨0, 0⟩⟩ : HandlerRef).groups ++ ["b"] :=
  ⟨(c7_empty_derivation_identity ⟨[], []⟩ ⟨NewOptions 0 "" Format.Color, 0, 0, ⟨0, 0⟩, ⟨0, 0⟩⟩
      [("", GoValue.vInt 1)] "b").1 (by decide),
   ((c7_empty_derivation_identity ⟨[], []⟩ ⟨NewOptions 0 "" Format.Color, 0, 0, ⟨0, 0⟩, ⟨0, 0⟩⟩
      [("", GoValue.vInt 1)] "b").2.2.2 (by decide)).1⟩

/-- C3: a handler derived by `WithGroup "a"` then `WithGroup "b"` from a
root with no accumulated attributes or groups emits the flattened dotted
key "a.b.c" for a record carrying a scalar attribute "c": in rich format
as a key of the collected fields map (which the encoded blob serialises),
in the spec-modelled structured format as a dotted top-level key of the
encoded object, and in the spec-modelled plain format as the `key=value`
token `a.b.c=<v>`. -/
theorem c3_group_nesting (hp : LogHeap) (h : HandlerRef) (v : GoValue)
    (t : GoTime) (lvl : Int) (msg : String)
    (ha : readSlice hp.attrArrays h.attrs = [])
    (hg : readSlice hp.groupArrays h.groups = [])
    (hv : v.isGroup = false) :
    mapLookup (collectFields
        (view (WithGroup (WithGroup hp h "a").1 (WithGroup hp h "a").2 "b").1
              (WithGroup (WithGroup hp h "a").1 (WithGroup hp h "a").2 "b").2)
        ⟨t, lvl, msg, [("c", v)]⟩) "a.b.c" = some v ∧
    mapLookup (specStructuredFields ["a", "b"] ⟨t, lvl, msg, [("c", v)]⟩) "a.b.c" = some v ∧
    ("a.b.c=" ++ renderValue v) ∈ specPlainPairs ["a", "b"] ⟨t, lvl, msg, [("c", v)]⟩ := by
  obtain ⟨_, _, hgr1, har1, _, _, _⟩ := withGroup_heap_shape hp h "a"
  obtain ⟨_, _, hgr2, har2, _, _, _⟩ :=
    withGroup_heap_shape (WithGroup hp h "a").1 (WithGroup hp h "a").2 "b"
  rw [hgr1, hg, if_neg (by decide)] at hgr2
  rw [har1, ha] at har2
  rw [if_neg (by decide)] at hgr2
  have hP : view (WithGroup (WithGroup hp h "a").1 (WithGroup hp h "a").2 "b").1
      (WithGroup (WithGroup hp h "a").1 (WithGroup hp h "a").2 "b").2
      = ⟨(WithGroup (WithGroup hp h "a").1 (WithGroup hp h "a").2 "b").2.opts,
         [], ["a", "b"]⟩ := by
    unfold view
    rw [har2, hgr2]
    rfl
  have main : ∀ (opts : Options),
      mapLookup (collectFields ⟨opts, [], ["a", "b"]⟩ ⟨t, lvl, msg, [("c", v)]⟩) "a.b.c"
        = some v ∧
      mapLookup (specStructuredFields ["a", "b"] ⟨t, lvl, msg, [("c", v)]⟩) "a.b.c" = some v ∧
      ("a.b.c=" ++ renderValue v) ∈ specPlainPairs ["a", "b"] ⟨t, lvl, msg, [("c", v)]⟩ := by
    intro opts
    unfold collectFields specStructuredFields specPlainPairs
    rw [show groupPre ⟨opts, [], ["a", "b"]⟩ = "a.b." from rfl]
    cases v with
    | vGroup g => simp [GoValue.isGroup] at hv
    | vInt i =>
        rw [processAttrs_cons, processAttr_vInt "c" (by decide) i,
            show ("a.b." ++ "c" : String) = "a.b.c" from rfl]
        refine ⟨?_, ?_, ?_⟩
        · rw [processAttrs_nil, processAttrs_nil]
          simp [mapInsert, mapLookup]
        · rw [show (if (["a", "b"] : List String).length > 0 then
                String.intercalate "." ["a", "b"] ++ "." else "") = "a.b." from rfl,
              processAttrs_cons, processAttr_vInt "c" (by decide) i,
              show ("a.b." ++ "c" : String) = "a.b.c" from rfl, processAttrs_nil]
          simp [mapInsert, mapLookup, renderValue]
        · show ("a.b.c=" ++ renderValue (GoValue.vInt i)) ∈
              List.map (fun p => p.1 ++ "=" ++ renderValue p.2)
                (processAttrs [("c", GoValue.vInt i)] "a.b." [])
          rw [processAttrs_cons, processAttr_vInt "c" (by decide) i,
              show ("a.b." ++ "c" : String) = "a.b.c" from rfl, processAttrs_nil]
          simp [mapInsert, renderValue]
    | vStr s =>
        rw [processAttrs_cons, processAttr_vStr "c" (by decide) s,
            show ("a.b." ++ "c" : String) = "a.b.c" from rfl]
        refine ⟨?_, ?_, ?_⟩
        · rw [processAttrs_nil, processAttrs_nil]
          simp [mapInsert, mapLookup]
        · rw [show (if (["a", "b"] : List String).length > 0 then
                String.intercalate "." ["a", "b"] ++ "." else "") = "a.b." from rfl,
              processAttrs_cons, processAttr_vStr "c" (by decide) s,
              show ("a.b." ++ "c" : String) = "a.b.c" from rfl, processAttrs_nil]
          simp [mapInsert, mapLookup, renderValue]
        · show ("a.b.c=" ++ renderValue (GoValue.vStr s)) ∈
              List.map (fun p => p.1 ++ "=" ++ renderValue p.2)
                (processAttrs [("c", GoValue.vStr s)] "a.b." [])
          rw [processAttrs_cons, processAttr_vStr "c" (by decide) s,
              show ("a.b." ++ "c" : String) = "a.b.c" from rfl, processAttrs_nil]
          simp [mapInsert, renderValue]
    | vBool b =>
        rw [processAttrs_cons, processAttr_vBool "c" (by decide) b,
            show ("a.b." ++ "c" : String) = "a.b.c" from rfl]
        refine ⟨?_, ?_, ?_⟩
        · rw [processAttrs_nil, processAttrs_nil]
          simp [mapInsert, mapLookup]
        · rw [show (if (["a", "b"] : List String).length > 0 then
                String.intercalate "." ["a", "b"] ++ "." else "") = "a.b." from rfl,
              processAttrs_cons, processAttr_vBool "c" (by decide) b,
              show ("a.b." ++ "c" : String) = "a.b.c" from rfl, processAttrs_nil]
          simp [mapInsert, mapLookup, renderValue]
        · show ("a.b.c=" ++ renderValue (GoValue.vBool b)) ∈
              List.map (fun p => p.1 ++ "=" ++ renderValue p.2)
                (processAttrs [("c", GoValue.vBool b)] "a.b." [])
          rw [processAttrs_cons, processAttr_vBool "c" (by decide) b,
              show ("a.b." ++ "c" : String) = "a.b.c" from rfl, processAttrs_nil]
          simp [mapInsert, renderValue]
  rw [hP]
  exact main _

/-- C3 witness: a root handler over the empty heap, value `1`; the dotted
key `a.b.c` is emitted in all three formats. -/
theorem c3_witness :
    mapLookup (collectFields
        (view (WithGroup (WithGroup ⟨[], []⟩
            ⟨NewOptions 0 "" Format.Color, 0, 0, ⟨0, 0⟩, ⟨0, 0⟩⟩ "a").1
          (WithGroup ⟨[], []⟩
            ⟨NewOptions 0 "" Format.Color, 0, 0, ⟨0, 0⟩, ⟨0, 0⟩⟩ "a").2 "b").1
              (WithGroup (WithGroup ⟨[], []⟩
            ⟨NewOptions 0 "" Format.Color, 0, 0, ⟨0, 0⟩, ⟨0, 0⟩⟩ "a").1
          (WithGroup ⟨[], []⟩
            ⟨NewOptions 0 "" Format.Color, 0, 0, ⟨0, 0⟩, ⟨0, 0⟩⟩ "a").2 "b").2)
        ⟨⟨0, 0, 0, 0⟩, 0, "m", [("c", GoValue.vInt 1)]⟩) "a.b.c" = some (GoValue.vInt 1) ∧
    mapLookup (specStructuredFields ["a", "b"]
        ⟨⟨0, 0, 0, 0⟩, 0, "m", [("c", GoValue.vInt 1)]⟩) "a.b.c" = some (GoValue.vInt 1) ∧
    ("a.b.c=" ++ renderValue (GoValue.vInt 1)) ∈ specPlainPairs ["a", "b"]
        ⟨⟨0, 0, 0, 0⟩, 0, "m", [("c", GoValue.vInt 1)]⟩ :=
  c3_group_nesting ⟨[], []⟩ ⟨NewOptions 0 "" Format.Color, 0, 0, ⟨0, 0⟩, ⟨0, 0⟩⟩
    (GoValue.vInt 1) ⟨0, 0, 0, 0⟩ 0 "m" rfl rfl rfl

theorem getD_set_self {α : Type} (l : List α) (i : Nat) (x d : α) (h : i < l.length) :
    (l.set i x).getD i d = x := by
  induction l generalizing i with
  | nil => exact absurd h (Nat.not_lt_zero i)
  | cons a l ih =>
      cases i with
      | zero => rfl
      | succ i =>
          simp only [List.set_cons_succ, List.getD_cons_succ]
          exact ih i (Nat.lt_of_succ_lt_succ h)

theorem getElem?_set_ne {α : Type} (l : List α) (i j : Nat) (x : α) (h : j ≠ i) :
    (l.set i x)[j]? = l[j]? := by
  induction l generalizing i j with
  | nil => rfl
  | cons a l ih =>
      cases i with
      | zero =>
          cases j with
          | zero => exact absurd rfl h
          | succ j => rfl
      | succ i =>
          cases j with
          | zero => simp only [List.set_cons_succ, List.getElem?_cons_zero]
          | succ j =>
              simp only [List.set_cons_succ, List.getElem?_cons_succ]
              exact ih i j (fun hc => h (by rw [hc]))

/-- C10: context-attribute update is not copy-on-write. When a context
already carries a `logCtx` map, `UpdateLogCtx` inserts the new binding
into that very map in place: no new map is allocated (the heap keeps its
size and every other map is untouched), and the binding becomes visible
through the ORIGINAL context — and through every other context sharing
that map id — via `ExtractLogAttrs`. -/
theorem c10_ctx_update_in_place :
    ∀ (st : CtxHeap) (ctx ctx2 : Ctx) (id : Nat) (k : String) (v : GoValue),
      getLogCtx ctx = some id → id < st.maps.length →
      ((UpdateLogCtx st ctx k v).1.maps.length = st.maps.length ∧
       (getLogCtx ctx2 = some id →
         ∃ attrs, extractLogAttrs (UpdateLogCtx st ctx k v).1 ctx2 = some attrs ∧
           mapLookup attrs k = some v) ∧
       (∀ j, j ≠ id → (UpdateLogCtx st ctx k v).1.maps[j]? = st.maps[j]?)) := by
  intro st ctx ctx2 id k v hid hlt
  unfold UpdateLogCtx updateLogCtx
  rw [hid]
  refine ⟨List.length_set _ _ _, ?ext, ?others⟩
  case ext =>
    intro h2
    refine ⟨(st.maps.set id (mapsCopy (st.maps.getD id []) [(k, v)])).getD id [], ?_, ?_⟩
    · unfold extractLogAttrs
      rw [h2]
      rfl
    · rw [getD_set_self st.maps id _ [] hlt]
      rw [show mapsCopy (st.maps.getD id []) [(k, v)]
            = mapInsert (st.maps.getD id []) k v from rfl]
      rw [mapLookup_mapInsert, if_pos rfl]
  case others =>
    intro j hj
    exact getElem?_set_ne st.maps id j _ hj

/-- C10 witness: a context carrying an (empty) `logCtx` map; after
`UpdateLogCtx ctx "k" 1`, extracting through the ORIGINAL context yields
the new binding, with no new map allocated. -/
theorem c10_witness :
    (UpdateLogCtx ⟨[[]]⟩ [0] "k" (GoValue.vInt 1)).1.maps.length = 1 ∧
    (∃ attrs, extractLogAttrs (UpdateLogCtx ⟨[[]]⟩ [0] "k" (GoValue.vInt 1)).1 [0]
        = some attrs ∧ mapLookup attrs "k" = some (GoValue.vInt 1)) :=
  have h := c10_ctx_update_in_place ⟨[[]]⟩ [0] [0] 0 "k" (GoValue.vInt 1) rfl (by decide)
  ⟨h.1, h.2.1 rfl⟩
